import Mathlib

/-!
Shallow embedding of `validate.py`, the structural auditor for a bug-benchmark
dataset repository, together with theorems settling the specification claims.

The filesystem is modelled as a tree of named files and directories; the
printed diagnostics of the Python program are modelled as the list of lines
it writes to standard output, in order.  Python exceptions raised while the
reference files are loaded are modelled with `Except`.
-/

set_option autoImplicit false

namespace BugRepoValidate

/-- A filesystem node: either a plain file or a directory with children. -/
inductive FSTree where
  | file (name : String)
  | dir (name : String) (children : List FSTree)

def FSTree.name : FSTree → String
  | .file n => n
  | .dir n _ => n

def FSTree.isDir : FSTree → Bool
  | .file _ => false
  | .dir _ _ => true

def FSTree.children : FSTree → List FSTree
  | .file _ => []
  | .dir _ cs => cs

/-- Look up a directory entry by name (models `path / name`). -/
def findEntry (cs : List FSTree) (n : String) : Option FSTree :=
  cs.find? (fun e => e.name == n)

/-- Predicate `pathExists p cs` models `(folder / p₁ / ... / pₖ).exists()` where `cs` is
the list of children of `folder`.  A file matches only as the last component. -/
def pathExists : List String → List FSTree → Bool
  | [], _ => true
  | n :: rest, cs =>
    match findEntry cs n with
    | none => false
    | some (.file _) => rest.isEmpty
    | some (.dir _ cs') => pathExists rest cs'

mutual
/-- All file names in the subtree of a node (models `os.walk`). -/
def FSTree.filesAll : FSTree → List String
  | .file n => [n]
  | .dir _ cs => filesAllList cs

/-- All file names in a forest, recursively (models the files visited by
`os.walk` from a directory with these children). -/
def filesAllList : List FSTree → List String
  | [] => []
  | t :: ts => t.filesAll ++ filesAllList ts
end

/-- Test `isPre p l` decides whether `p` is a prefix of `l` (character lists). -/
def isPre : List Char → List Char → Bool
  | [], _ => true
  | _ :: _, [] => false
  | a :: as, b :: bs => a == b && isPre as bs

/-- Models Python `str.startswith`. -/
def strStartsWith (s p : String) : Bool := isPre p.data s.data

/-- Models Python `str.endswith`. -/
def strEndsWith (s p : String) : Bool := isPre p.data.reverse s.data.reverse

/-- A filename matches the glob `<pre>*.java` (as used by `fnmatch.filter`):
it starts with `pre`, ends with `.java`, and the two parts do not overlap. -/
def globJava (pre : String) (nm : String) : Bool :=
  strStartsWith nm pre && strEndsWith nm ".java" && decide (pre.length + 5 ≤ nm.length)

/-- Function `find_randoop_test_files` from the source: walk the subtree at the given
path-lookup result and collect files matching `Randoop*.java`.  `os.walk` of a
missing path or of a plain file yields nothing. -/
def find_randoop_test_files : Option FSTree → List String
  | some (.dir _ cs) => (filesAllList cs).filter (globJava "Randoop")
  | _ => []

/-- Function `find_evosuite_test_files` from the source (`Evosuite*.java`). -/
def find_evosuite_test_files : Option FSTree → List String
  | some (.dir _ cs) => (filesAllList cs).filter (globJava "Evosuite")
  | _ => []

/-- The four datasets, in the iteration order of the Python `Dataset` enum. -/
inductive Dataset where
  | defects4j
  | quixbugs
  | bears
  | bugswarm
  deriving DecidableEq

def Dataset.value : Dataset → String
  | .defects4j => "Defects4J"
  | .quixbugs => "QuixBugs"
  | .bears => "Bears"
  | .bugswarm => "BugSwarm"

def datasetOrder : List Dataset := [.defects4j, .quixbugs, .bears, .bugswarm]

/-- Table `dataset_requirements` from the source. -/
def dataset_requirements : Dataset → Nat
  | .defects4j => 68
  | .quixbugs => 20
  | .bears => 20
  | .bugswarm => 20

def DEFECTS4J_CATEGORY : List String :=
  ["Chart", "Cli", "Closure", "Codec", "Collections", "Compress", "Csv", "Gson", "JacksonCore",
   "JacksonDatabind", "JacksonXml", "Jsoup", "JxPath", "Lang", "Math", "Mockito", "Time"]

/-- One branch of the regex `(C1|...|C17)_\d+` under `re.match`: the name
begins with `cat`, then `_`, then at least one decimal digit; the end of the
name is NOT anchored (the source pattern has no `$` and uses `re.match`). -/
def catMatch (name : List Char) (cat : String) : Bool :=
  isPre (cat.data ++ ['_']) name &&
    (match name.drop (cat.length + 1) with
     | c :: _ => c.isDigit
     | [] => false)

/-- Truthiness of `pattern.match(name)` for the Defects4J category pattern. -/
def defects4jMatch (name : String) : Bool :=
  DEFECTS4J_CATEGORY.any (fun cat => catMatch name.data cat)

/-- Function `list_bug_candidates` from the source, specialised to the (always valid)
dataset argument `dataset.value`; the reference sets are passed explicitly. -/
def list_bug_candidates (entries : List FSTree) (dataset : Dataset)
    (qs bs : List String) : List FSTree :=
  match dataset with
  | .defects4j => entries.filter (fun e => e.isDir && defects4jMatch e.name)
  | .quixbugs => entries.filter (fun e => e.isDir && qs.contains e.name)
  | .bears => entries.filter (fun e => e.isDir && strStartsWith e.name "Bears-")
  | .bugswarm => entries.filter (fun e => e.isDir && bs.contains e.name)

/-! ### Reference loader -/

/-- One record of `Export.json`; only the `image_tag` field is consumed by the
source (`none` models a record on which the field is absent). -/
structure BugRecord where
  image_tag : Option String

/-- State of the `Export.json` reference file. -/
inductive JsonFile where
  | missing
  | malformed
  | records (rs : List BugRecord)

/-- The two reference files read from the working directory:
`QuixBugs.txt` (`none` models a missing file) and `Export.json`. -/
structure RefFiles where
  quixbugsTxt : Option String
  exportJson : JsonFile

/-- Abstract error raised while loading the reference files
(`FileNotFoundError`, `json.JSONDecodeError` or `KeyError` in the source). -/
inductive ReferenceLoadError where
  | quixbugsMissing
  | exportMissing
  | exportMalformed
  | imageTagAbsent
  deriving DecidableEq

/-- Python `str.splitlines` restricted to `\n` newlines: every newline
terminates a line, and a final segment is emitted only if nonempty. -/
def splitlinesAux : List Char → List Char → List String
  | [], acc => if acc.isEmpty then [] else [String.mk acc.reverse]
  | c :: rest, acc =>
    if c = '\n' then String.mk acc.reverse :: splitlinesAux rest []
    else splitlinesAux rest (c :: acc)

def pythonSplitlines (s : String) : List String := splitlinesAux s.data []

/-- Extract the `image_tag` field of every record; a `KeyError` on the first
record missing it (models the set comprehension over `Export.json`). -/
def extractTags : List BugRecord → Except ReferenceLoadError (List String)
  | [] => .ok []
  | r :: rs =>
    match r.image_tag with
    | none => .error .imageTagAbsent
    | some t => (extractTags rs).map (fun ts => t :: ts)

/-- Function `read_dataset_files` from the source: returns the QuixBugs and BugSwarm
reference sets, or the exception the Python code would raise. -/
def read_dataset_files (refs : RefFiles) :
    Except ReferenceLoadError (List String × List String) :=
  match refs.quixbugsTxt with
  | none => .error .quixbugsMissing
  | some content =>
    let qs := pythonSplitlines content
    match refs.exportJson with
    | .missing => .error .exportMissing
    | .malformed => .error .exportMalformed
    | .records rs => (extractTags rs).map (fun bs => (qs, bs))

/-! ### The validator -/

/-- The repository root: for each dataset, the children of its root folder,
or `none` when the folder does not exist. -/
structure Repo where
  defects4j : Option (List FSTree)
  quixbugs : Option (List FSTree)
  bears : Option (List FSTree)
  bugswarm : Option (List FSTree)

def Repo.root (repo : Repo) : Dataset → Option (List FSTree)
  | .defects4j => repo.defects4j
  | .quixbugs => repo.quixbugs
  | .bears => repo.bears
  | .bugswarm => repo.bugswarm

/-- Result of a stage of the run: printed lines, the `validate_pass` flag,
and whether the stage executed a `return` from `validate`. -/
abbrev RunRes := List String × Bool × Bool

/-- The coverage-folder checks of a candidate (source lines 116-142): seven
sequential existence checks, each printing one line and returning on failure.
Returns the printed lines and whether a `return` was executed; the
`validate_pass` flag is not modified by this group in the source. -/
def coverageChecks (ds name : String) (ch : List FSTree) : List String × Bool :=
  if pathExists ["Coverage"] ch = false then
    (["[FAIL] No coverage folder in " ++ ds ++ "-" ++ name], true)
  else if pathExists ["Coverage", "Buggy-version-Randoop"] ch = false then
    (["[FAIL] No coverage folder for Randoop in " ++ ds ++ "-" ++ name], true)
  else if pathExists ["Coverage", "Buggy-version-Evosuite"] ch = false then
    (["[FAIL] No coverage folder for Evosuite in " ++ ds ++ "-" ++ name], true)
  else if pathExists ["Coverage", "Patched-version-Randoop"] ch = false then
    (["[FAIL] No coverage folder for Randoop in " ++ ds ++ "-" ++ name], true)
  else if pathExists ["Coverage", "Patched-version-Evosuite"] ch = false then
    (["[FAIL] No coverage folder for Evosuite in " ++ ds ++ "-" ++ name], true)
  else if pathExists ["Coverage", "Buggy-version-All"] ch = false then
    (["[FAIL] No coverage folder for All in " ++ ds ++ "-" ++ name], true)
  else if pathExists ["Coverage", "Patched-version-All"] ch = false then
    (["[FAIL] No coverage folder for All in " ++ ds ++ "-" ++ name], true)
  else ([], false)

/-- The per-candidate body of the loop in `validate` (source lines 88-142),
for a candidate named `name` with children `ch`, entered with `validate_pass`
equal to `vp`. -/
def checkCandidate (ds name : String) (ch : List FSTree) (vp : Bool) : RunRes :=
  let versionsOk := pathExists ["Buggy-Version"] ch && pathExists ["Patched-Version"] ch
  let testOk := pathExists ["test.txt"] ch
  let l1 := if versionsOk = false then
    ["[FAIL] Incomplete versions in " ++ ds ++ "-" ++ name] else []
  let l2 := if testOk = false then
    ["[FAIL] No failed test file in " ++ ds ++ "-" ++ name] else []
  let vp1 := vp && versionsOk && testOk
  if vp1 = false then (l1 ++ l2, vp1, true)
  else
    let rb := find_randoop_test_files (findEntry ch "Buggy-Version")
    let rp := find_randoop_test_files (findEntry ch "Patched-Version")
    let eb := find_evosuite_test_files (findEntry ch "Buggy-Version")
    let ep := find_evosuite_test_files (findEntry ch "Patched-Version")
    let l3 := if rb.length = 0 then
      ["[FAIL] No Randoop test files in " ++ ds ++ "-" ++ name ++ "/Buggy-Version"] else []
    let l4 := if rp.length = 0 then
      ["[FAIL] No Randoop test files in " ++ ds ++ "-" ++ name ++ "/Patched-Version"] else []
    let l5 := if eb.length = 0 then
      ["[FAIL] No Evosuite test files in " ++ ds ++ "-" ++ name ++ "/Buggy-Version"] else []
    let l6 := if ep.length = 0 then
      ["[FAIL] No Evosuite test files in " ++ ds ++ "-" ++ name ++ "/Patched-Version"] else []
    let vp2 := vp1 && !(decide (rb.length = 0)) && !(decide (rp.length = 0)) &&
      !(decide (eb.length = 0)) && !(decide (ep.length = 0))
    if vp2 = false then (l1 ++ l2 ++ l3 ++ l4 ++ l5 ++ l6, vp2, true)
    else
      let cov := coverageChecks ds name ch
      (l1 ++ l2 ++ l3 ++ l4 ++ l5 ++ l6 ++ cov.1, vp2, cov.2)

/-- The candidate loop of `validate` for one dataset. -/
def processCandidates (ds : String) (cands : List FSTree) (vp : Bool) : RunRes :=
  match cands with
  | [] => ([], vp, false)
  | c :: rest =>
    let r := checkCandidate ds c.name c.children vp
    if r.2.2 then r
    else
      let r' := processCandidates ds rest r.2.1
      (r.1 ++ r'.1, r'.2.1, r'.2.2)

/-- One iteration of the dataset loop of `validate` (source lines 74-142). -/
def processDataset (qs bs : List String) (repo : Repo) (d : Dataset) (vp : Bool) :
    RunRes :=
  match repo.root d with
  | none => (["[FAIL] No " ++ d.value ++ " folder"], vp, true)
  | some entries =>
    let cands := list_bug_candidates entries d qs bs
    let minB := dataset_requirements d
    let l0 := if cands.length < minB then
      ["[FAIL] Missing " ++ toString (minB - cands.length) ++ " bugs in " ++ d.value]
      else []
    let vp1 := vp && !(decide (cands.length < minB))
    let r := processCandidates d.value cands vp1
    (l0 ++ r.1, r.2.1, r.2.2)

/-- The dataset loop of `validate`. -/
def processDatasets (qs bs : List String) (repo : Repo) :
    List Dataset → Bool → RunRes
  | [], vp => ([], vp, false)
  | d :: rest, vp =>
    let r := processDataset qs bs repo d vp
    if r.2.2 then r
    else
      let r' := processDatasets qs bs repo rest r.2.1
      (r.1 ++ r'.1, r'.2.1, r'.2.2)

/-- Function `validate` from the source: the list of lines printed to standard output,
or the exception propagating out of `read_dataset_files`. -/
def validate (refs : RefFiles) (repo : Repo) :
    Except ReferenceLoadError (List String) :=
  match read_dataset_files refs with
  | .error e => .error e
  | .ok (qs, bs) =>
    let r := processDatasets qs bs repo datasetOrder true
    if r.2.2 then .ok r.1
    else if r.2.1 then .ok (r.1 ++ ["[PASS] Validation pass"])
    else .ok r.1

/-! ### Derived predicates used by the claims -/

/-- A line printed with the failure prefix `[FAIL]`. -/
def isFailLine (l : String) : Bool := isPre "[FAIL]".data l.data

/-- A candidate folder satisfying every structural requirement listed by the
specification: both version folders, `test.txt`, at least one Randoop and one
Evosuite test file in each version subtree, and the `Coverage` folder with
all six named subfolders. -/
def conformantCandidate (ch : List FSTree) : Bool :=
  pathExists ["Buggy-Version"] ch && pathExists ["Patched-Version"] ch &&
  pathExists ["test.txt"] ch &&
  decide ((find_randoop_test_files (findEntry ch "Buggy-Version")).length ≠ 0) &&
  decide ((find_randoop_test_files (findEntry ch "Patched-Version")).length ≠ 0) &&
  decide ((find_evosuite_test_files (findEntry ch "Buggy-Version")).length ≠ 0) &&
  decide ((find_evosuite_test_files (findEntry ch "Patched-Version")).length ≠ 0) &&
  pathExists ["Coverage"] ch &&
  pathExists ["Coverage", "Buggy-version-Randoop"] ch &&
  pathExists ["Coverage", "Buggy-version-Evosuite"] ch &&
  pathExists ["Coverage", "Patched-version-Randoop"] ch &&
  pathExists ["Coverage", "Patched-version-Evosuite"] ch &&
  pathExists ["Coverage", "Buggy-version-All"] ch &&
  pathExists ["Coverage", "Patched-version-All"] ch

/-- One dataset is fully conformant: its root exists, the candidate count
meets the minimum, and every candidate is conformant. -/
def datasetConformant (qs bs : List String) (repo : Repo) (d : Dataset) : Bool :=
  match repo.root d with
  | none => false
  | some entries =>
    let cands := list_bug_candidates entries d qs bs
    decide (dataset_requirements d ≤ cands.length) &&
      cands.all (fun c => conformantCandidate c.children)

/-- Every dataset of the repository is fully conformant. -/
def conformantRepo (qs bs : List String) (repo : Repo) : Bool :=
  datasetOrder.all (datasetConformant qs bs repo)

/-- Modelled from the spec claim C1: the fully anchored category pattern
`^(Cat1|...|Cat17)_\d+$` — the whole name is a category, an underscore, and
digits only.  This is the claim's reading, to be compared with the source's
`defects4jMatch`. -/
def specAnchoredMatch (name : String) : Bool :=
  DEFECTS4J_CATEGORY.any (fun cat =>
    isPre (cat.data ++ ['_']) name.data &&
      (let t := name.data.drop (cat.length + 1)
       decide (t ≠ []) && t.all (fun c => c.isDigit)))

/-- Plain-text file content holding the given identifiers one per line, every
line terminated by a newline (so the file ends in a trailing newline). -/
def joinLines : List String → String
  | [] => ""
  | [i] => i ++ "\n"
  | i :: rest => i ++ "\n" ++ joinLines rest

/-- Invariant tying a stage's printed lines to the flag transition: all lines
are failures; the flag never rises; a surviving flag with no early return
means nothing was printed; a dropped flag means something was printed; an
early return printed something unless the stage began with the flag down. -/
def StageInv (b : Bool) (r : RunRes) : Prop :=
  (∀ l ∈ r.1, isFailLine l = true) ∧
  (r.2.1 = true → b = true) ∧
  (r.2.1 = true → r.2.2 = false → r.1 = []) ∧
  (b = true → r.2.1 = false → r.1 ≠ []) ∧
  (r.2.2 = true → r.1 ≠ [] ∨ b = false)

/-! ### Concrete instances used by witnesses and counterexamples -/

/-- A fully conformant candidate folder. -/
def goodCand : List FSTree :=
  [.dir "Buggy-Version" [.file "RandoopTest1.java", .file "EvosuiteTest1.java"],
   .dir "Patched-Version" [.dir "sub" [.file "RandoopTest1.java", .file "EvosuiteTest1.java"]],
   .file "test.txt",
   .dir "Coverage" [.dir "Buggy-version-Randoop" [], .dir "Buggy-version-Evosuite" [],
     .dir "Patched-version-Randoop" [], .dir "Patched-version-Evosuite" [],
     .dir "Buggy-version-All" [], .dir "Patched-version-All" []]]

def cands68 : List FSTree :=
  (List.range 68).map (fun i => FSTree.dir ("Lang_" ++ toString (i + 1)) goodCand)

def quixContent : String :=
  String.intercalate "\n" ((List.range 20).map (fun i => "q" ++ toString i))

def qsBig : List String := pythonSplitlines quixContent

def bsRecords : List BugRecord := (List.range 20).map (fun i => ⟨some ("t" ++ toString i)⟩)

def bsBig : List String := (List.range 20).map (fun i => "t" ++ toString i)

def refsBig : RefFiles := ⟨some quixContent, .records bsRecords⟩

/-- A fully conformant repository: 68 Defects4J bugs and 20 bugs in each of
the other three datasets, every candidate conformant. -/
def repoBig : Repo :=
  { defects4j := some cands68
    quixbugs := some ((List.range 20).map (fun i => FSTree.dir ("q" ++ toString i) goodCand))
    bears := some ((List.range 20).map (fun i => FSTree.dir ("Bears-" ++ toString (i + 1)) goodCand))
    bugswarm := some ((List.range 20).map (fun i => FSTree.dir ("t" ++ toString i) goodCand)) }

/-- Reference files that load successfully with empty sets. -/
def refsTriv : RefFiles := ⟨some "", .records []⟩

/-- A candidate with both versions and `test.txt`, Evosuite tests in both
versions, but no Randoop test file anywhere. -/
def chC3 : List FSTree :=
  [.dir "Buggy-Version" [.file "EvosuiteTest1.java"],
   .dir "Patched-Version" [.file "EvosuiteTest1.java"],
   .file "test.txt"]

/-- A repository whose Defects4J dataset has exactly one candidate (a count
shortfall of 67) whose Randoop content checks would fail. -/
def repoC3 : Repo := ⟨some [.dir "Lang_1" chC3], none, none, none⟩

def fullCov : List FSTree :=
  [.dir "Buggy-version-Randoop" [], .dir "Buggy-version-Evosuite" [],
   .dir "Patched-version-Randoop" [], .dir "Patched-version-Evosuite" [],
   .dir "Buggy-version-All" [], .dir "Patched-version-All" []]

/-- A candidate passing every check except that the named coverage subfolder
is absent. -/
def candMissingCov (missing : String) : List FSTree :=
  [.dir "Buggy-Version" [.file "RandoopTest1.java", .file "EvosuiteTest1.java"],
   .dir "Patched-Version" [.file "RandoopTest1.java", .file "EvosuiteTest1.java"],
   .file "test.txt",
   .dir "Coverage" (fullCov.filter (fun e => e.name != missing))]

/-- 67 further pattern-matching Defects4J directories (never audited: the run
halts on the first candidate). -/
def fillCands : List FSTree :=
  (List.range 67).map (fun i => FSTree.dir ("Lang_" ++ toString (i + 2)) [])

/-- A repository whose Defects4J dataset meets the count minimum and whose
first candidate lacks exactly the named coverage subfolder. -/
def repoCov (missing : String) : Repo :=
  ⟨some (FSTree.dir "Lang_1" (candMissingCov missing) :: fillCands), none, none, none⟩

/-- A repository whose Defects4J root folder is absent. -/
def repoNoRoot : Repo := ⟨none, some [], some [], some []⟩

/-! ### Basic lemmas -/

theorem isPre_iff (p l : List Char) : isPre p l = true ↔ ∃ t, l = p ++ t := by
  induction p generalizing l with
  | nil => simp [isPre]
  | cons a as ih =>
    cases l with
    | nil => simp [isPre]
    | cons b bs =>
      simp only [isPre, Bool.and_eq_true, beq_iff_eq, ih, List.cons_append]
      constructor
      · rintro ⟨rfl, t, rfl⟩
        exact ⟨t, rfl⟩
      · rintro ⟨t, ht⟩
        injection ht with h1 h2
        exact ⟨h1.symm, t, h2⟩

theorem isPre_append (p l m : List Char) (h : isPre p l = true) :
    isPre p (l ++ m) = true := by
  rcases (isPre_iff p l).mp h with ⟨t, rfl⟩
  exact (isPre_iff p _).mpr ⟨t ++ m, by simp⟩

theorem strData_append (a b : String) : (a ++ b).data = a.data ++ b.data := rfl

theorem isFailLine_append (x y : String) (h : isFailLine x = true) :
    isFailLine (x ++ y) = true := by
  unfold isFailLine at h ⊢
  rw [strData_append]
  exact isPre_append _ _ _ h

theorem isFailLine_pass : isFailLine "[PASS] Validation pass" = false := by decide

@[simp] theorem failLine_noFolder (d : String) :
    isFailLine ("[FAIL] No " ++ d ++ " folder") = true :=
  isFailLine_append _ _ (isFailLine_append _ _ (by decide))

@[simp] theorem failLine_missing (n d : String) :
    isFailLine ("[FAIL] Missing " ++ n ++ " bugs in " ++ d) = true :=
  isFailLine_append _ _ (isFailLine_append _ _ (isFailLine_append _ _ (by decide)))

@[simp] theorem failLine_incomplete (d nm : String) :
    isFailLine ("[FAIL] Incomplete versions in " ++ d ++ "-" ++ nm) = true :=
  isFailLine_append _ _ (isFailLine_append _ _ (isFailLine_append _ _ (by decide)))

@[simp] theorem failLine_noTest (d nm : String) :
    isFailLine ("[FAIL] No failed test file in " ++ d ++ "-" ++ nm) = true :=
  isFailLine_append _ _ (isFailLine_append _ _ (isFailLine_append _ _ (by decide)))

@[simp] theorem failLine_noRandoop (d nm v : String) :
    isFailLine ("[FAIL] No Randoop test files in " ++ d ++ "-" ++ nm ++ v) = true :=
  isFailLine_append _ _
    (isFailLine_append _ _ (isFailLine_append _ _ (isFailLine_append _ _ (by decide))))

@[simp] theorem failLine_noEvosuite (d nm v : String) :
    isFailLine ("[FAIL] No Evosuite test files in " ++ d ++ "-" ++ nm ++ v) = true :=
  isFailLine_append _ _
    (isFailLine_append _ _ (isFailLine_append _ _ (isFailLine_append _ _ (by decide))))

@[simp] theorem failLine_noCoverage (d nm : String) :
    isFailLine ("[FAIL] No coverage folder in " ++ d ++ "-" ++ nm) = true :=
  isFailLine_append _ _ (isFailLine_append _ _ (isFailLine_append _ _ (by decide)))

@[simp] theorem failLine_covRandoop (d nm : String) :
    isFailLine ("[FAIL] No coverage folder for Randoop in " ++ d ++ "-" ++ nm) = true :=
  isFailLine_append _ _ (isFailLine_append _ _ (isFailLine_append _ _ (by decide)))

@[simp] theorem failLine_covEvosuite (d nm : String) :
    isFailLine ("[FAIL] No coverage folder for Evosuite in " ++ d ++ "-" ++ nm) = true :=
  isFailLine_append _ _ (isFailLine_append _ _ (isFailLine_append _ _ (by decide)))

@[simp] theorem failLine_covAll (d nm : String) :
    isFailLine ("[FAIL] No coverage folder for All in " ++ d ++ "-" ++ nm) = true :=
  isFailLine_append _ _ (isFailLine_append _ _ (isFailLine_append _ _ (by decide)))

/-! ### Control-flow lemmas for the candidate checks -/

theorem coverageChecks_cases (ds nm : String) (ch : List FSTree) :
    coverageChecks ds nm ch = ([], false) ∨
      ∃ l, coverageChecks ds nm ch = ([l], true) ∧ isFailLine l = true := by
  unfold coverageChecks
  split_ifs <;>
    first
      | (left; rfl)
      | (right; exact ⟨_, rfl, by simp⟩)

/-- Entering a candidate with the flag already down runs only the version and
`test.txt` checks and then returns. -/
theorem checkCandidate_flagFalse (ds nm : String) (ch : List FSTree) :
    checkCandidate ds nm ch false =
      ((if (pathExists ["Buggy-Version"] ch && pathExists ["Patched-Version"] ch) = false
          then ["[FAIL] Incomplete versions in " ++ ds ++ "-" ++ nm] else []) ++
       (if pathExists ["test.txt"] ch = false
          then ["[FAIL] No failed test file in " ++ ds ++ "-" ++ nm] else []),
       false, true) := by
  unfold checkCandidate
  simp

theorem checkCandidate_conformant (ds nm : String) (ch : List FSTree)
    (h : conformantCandidate ch = true) :
    checkCandidate ds nm ch true = ([], true, false) := by
  unfold conformantCandidate at h
  simp only [Bool.and_eq_true, decide_eq_true_eq] at h
  obtain ⟨⟨⟨⟨⟨⟨⟨⟨⟨⟨⟨⟨⟨h1, h2⟩, h3⟩, h4⟩, h5⟩, h6⟩, h7⟩, h8⟩, h9⟩, h10⟩, h11⟩, h12⟩, h13⟩, h14⟩ := h
  unfold checkCandidate coverageChecks
  simp [h1, h2, h3, h4, h5, h6, h7, h8, h9, h10, h11, h12, h13, h14]

/-! ### The stage invariant -/

theorem StageInv.seq {b : Bool} {r r' : RunRes}
    (h : StageInv b r) (h' : StageInv r.2.1 r') (hh : r.2.2 = false) :
    StageInv b (r.1 ++ r'.1, r'.2.1, r'.2.2) := by
  obtain ⟨m1, m2, m3, m4, m5⟩ := h
  obtain ⟨n1, n2, n3, n4, n5⟩ := h'
  refine ⟨?_, ?_, ?_, ?_, ?_⟩
  · intro l hl
    rcases List.mem_append.mp hl with hl | hl
    · exact m1 l hl
    · exact n1 l hl
  · intro hf
    exact m2 (n2 hf)
  · intro hf hh'
    have hr1 : r.1 = [] := m3 (n2 hf) hh
    have hr'1 : r'.1 = [] := n3 hf hh'
    simp [hr1, hr'1]
  · intro hb hf
    cases hr : r.2.1 with
    | false => simp [m4 hb hr]
    | true => simp [n4 hr hf]
  · intro hht
    rcases n5 hht with hne | hfl
    · left; simp [hne]
    · cases hb : b with
      | false => right; rfl
      | true => left; simp [m4 hb hfl]

theorem checkCandidate_inv (ds nm : String) (ch : List FSTree) (b : Bool) :
    StageInv b (checkCandidate ds nm ch b) := by
  cases b with
  | false =>
    rw [checkCandidate_flagFalse]
    refine ⟨?_, by simp, by simp, by simp, fun _ => Or.inr rfl⟩
    intro l hl
    rcases List.mem_append.mp hl with hl | hl <;>
      [skip; skip] <;> split at hl <;> simp_all
  | true =>
    cases hv : (pathExists ["Buggy-Version"] ch && pathExists ["Patched-Version"] ch) with
    | false =>
      unfold checkCandidate
      rw [hv]
      refine ⟨?_, by simp, by simp, by simp, by simp⟩
      intro l hl
      simp only [Bool.false_eq_true, if_false, Bool.true_and, Bool.false_and] at hl
      rcases List.mem_append.mp hl with hl | hl
      · simp_all
      · split at hl <;> simp_all
    | true =>
      cases ht : pathExists ["test.txt"] ch with
      | false =>
        unfold checkCandidate
        rw [hv, ht]
        refine ⟨?_, by simp, by simp, by simp, by simp⟩
        intro l hl
        simp only [Bool.true_and, Bool.and_false] at hl
        rcases List.mem_append.mp hl with hl | hl
        · split at hl <;> simp_all
        · simp_all
      | true =>
        unfold checkCandidate
        rw [hv, ht]
        simp only [Bool.true_and, Bool.and_true, if_neg (by simp : ¬(true = false))]
        by_cases hrb : (find_randoop_test_files (findEntry ch "Buggy-Version")).length = 0 <;>
        by_cases hrp : (find_randoop_test_files (findEntry ch "Patched-Version")).length = 0 <;>
        by_cases heb : (find_evosuite_test_files (findEntry ch "Buggy-Version")).length = 0 <;>
        by_cases hep : (find_evosuite_test_files (findEntry ch "Patched-Version")).length = 0 <;>
          simp only [hrb, hrp, heb, hep, if_true, if_false, decide_eq_true_eq,
            decide_eq_false_iff_not, not_false_iff, decide_True, decide_False,
            Bool.not_true, Bool.not_false, Bool.and_false, Bool.and_true, Bool.true_and,
            Bool.false_and, if_pos, if_neg, not_true_eq_false, not_false_eq_true] <;>
          first
            | (refine ⟨?_, by simp, by simp, by simp, by simp⟩
               intro l hl
               simp only [List.mem_append, List.mem_singleton,
                 List.not_mem_nil, or_false, false_or] at hl
               aesop)
            | (rcases coverageChecks_cases ds nm ch with hcov | ⟨l, hcov, hfl⟩ <;>
                simp only [hcov] <;>
                exact ⟨by intro x hx; simp_all, by simp, by simp, by simp,
                  by simp_all⟩)

theorem processCandidates_inv (ds : String) (cands : List FSTree) (b : Bool) :
    StageInv b (processCandidates ds cands b) := by
  induction cands generalizing b with
  | nil =>
    refine ⟨by simp [processCandidates], by simp [processCandidates], ?_, ?_, ?_⟩ <;>
      simp [processCandidates]
  | cons c rest ih =>
    have hc := checkCandidate_inv ds c.name c.children b
    unfold processCandidates
    cases hh : (checkCandidate ds c.name c.children b).2.2 with
    | true => simpa [hh] using hc
    | false =>
      simp only [hh, if_false, Bool.false_eq_true]
      exact StageInv.seq hc (ih _) hh

theorem processDataset_inv (qs bs : List String) (repo : Repo) (d : Dataset) (b : Bool) :
    StageInv b (processDataset qs bs repo d b) := by
  unfold processDataset
  cases hroot : repo.root d with
  | none =>
    refine ⟨by intro l hl; simp_all, by simp, by simp, by simp, fun _ => Or.inl (by simp)⟩
  | some entries =>
    simp only
    have hr := processCandidates_inv d.value (list_bug_candidates entries d qs bs)
      (b && !(decide ((list_bug_candidates entries d qs bs).length < dataset_requirements d)))
    set cands := list_bug_candidates entries d qs bs with hcands
    set minB := dataset_requirements d with hminB
    set r := processCandidates d.value cands (b && !(decide (cands.length < minB))) with hrdef
    by_cases hshort : cands.length < minB
    · simp only [if_pos hshort]
      obtain ⟨m1, m2, m3, m4, m5⟩ := hr
      refine ⟨?_, ?_, ?_, ?_, ?_⟩
      · intro l hl
        rcases List.mem_cons.mp hl with rfl | hl
        · simp
        · exact m1 l hl
      · intro hf
        have := m2 hf
        simp only [Bool.and_eq_true] at this
        exact this.1
      · intro hf _
        have := m2 hf
        simp [hshort] at this
      · intro _ _
        simp
      · intro _
        left; simp
    · simp only [if_neg hshort]
      obtain ⟨m1, m2, m3, m4, m5⟩ := hr
      have hb' : (b && !(decide (cands.length < minB))) = b := by
        simp [hshort]
      rw [hb'] at m2 m4 m5
      refine ⟨?_, m2, ?_, ?_, ?_⟩
      · intro l hl
        exact m1 l (by simpa using hl)
      · intro hf hh
        simpa using m3 hf hh
      · intro hb hf
        simpa using m4 hb hf
      · intro hh
        rcases m5 hh with hne | hfl
        · left; simpa using hne
        · right; exact hfl

theorem processDatasets_inv (qs bs : List String) (repo : Repo) (l : List Dataset)
    (b : Bool) : StageInv b (processDatasets qs bs repo l b) := by
  induction l generalizing b with
  | nil =>
    refine ⟨by simp [processDatasets], by simp [processDatasets], ?_, ?_, ?_⟩ <;>
      simp [processDatasets]
  | cons d rest ih =>
    have hd := processDataset_inv qs bs repo d b
    unfold processDatasets
    cases hh : (processDataset qs bs repo d b).2.2 with
    | true => simpa [hh] using hd
    | false =>
      simp only [hh, if_false, Bool.false_eq_true]
      exact StageInv.seq hd (ih _) hh

/-! ### Conformant runs -/

theorem processCandidates_conformant (ds : String) (cands : List FSTree)
    (h : ∀ c ∈ cands, conformantCandidate c.children = true) :
    processCandidates ds cands true = ([], true, false) := by
  induction cands with
  | nil => rfl
  | cons c rest ih =>
    unfold processCandidates
    rw [checkCandidate_conformant ds c.name c.children (h c (List.mem_cons_self c rest))]
    simpa using ih (fun x hx => h x (List.mem_cons_of_mem c hx))

theorem processDataset_conformant (qs bs : List String) (repo : Repo) (d : Dataset)
    (h : datasetConformant qs bs repo d = true) :
    processDataset qs bs repo d true = ([], true, false) := by
  unfold datasetConformant at h
  cases hroot : repo.root d with
  | none => rw [hroot] at h; exact absurd h (by simp)
  | some entries =>
    rw [hroot] at h
    simp only [Bool.and_eq_true, decide_eq_true_eq, List.all_eq_true] at h
    obtain ⟨hcount, hall⟩ := h
    unfold processDataset
    rw [hroot]
    have hns : ¬((list_bug_candidates entries d qs bs).length < dataset_requirements d) :=
      not_lt.mpr hcount
    simp only [if_neg hns, decide_eq_false hns, Bool.not_false, Bool.and_true]
    rw [processCandidates_conformant d.value _ (fun c hc => hall c hc)]
    simp

theorem processDatasets_conformant (qs bs : List String) (repo : Repo)
    (l : List Dataset) (h : ∀ d ∈ l, datasetConformant qs bs repo d = true) :
    processDatasets qs bs repo l true = ([], true, false) := by
  induction l with
  | nil => rfl
  | cons d rest ih =>
    unfold processDatasets
    rw [processDataset_conformant qs bs repo d (h d (List.mem_cons_self d rest))]
    simpa using ih (fun x hx => h x (List.mem_cons_of_mem d hx))

/-! ### Splitlines lemmas -/

theorem strMk_data (s : String) : String.mk s.data = s := rfl

theorem splitlinesAux_no_nl (l : List Char) (acc : List Char) (h : '\n' ∉ l) :
    splitlinesAux (l ++ ['\n']) acc = [String.mk (acc.reverse ++ l)] := by
  induction l generalizing acc with
  | nil => simp [splitlinesAux]
  | cons c cs ih =>
    have hc : ¬(c = '\n') := fun hh => h (hh ▸ List.mem_cons_self c cs)
    simp only [List.cons_append, splitlinesAux, if_neg hc, List.append_eq]
    rw [ih (c :: acc) (fun hm => h (List.mem_cons_of_mem c hm))]
    simp

theorem splitlinesAux_line (l rest : List Char) (acc : List Char) (h : '\n' ∉ l) :
    splitlinesAux (l ++ '\n' :: rest) acc =
      String.mk (acc.reverse ++ l) :: splitlinesAux rest [] := by
  induction l generalizing acc with
  | nil => simp [splitlinesAux]
  | cons c cs ih =>
    have hc : ¬(c = '\n') := fun hh => h (hh ▸ List.mem_cons_self c cs)
    simp only [List.cons_append, splitlinesAux, if_neg hc, List.append_eq]
    rw [ih (c :: acc) (fun hm => h (List.mem_cons_of_mem c hm))]
    simp

/-! ### Reference-loader lemmas -/

theorem extractTags_error_iff (rs : List BugRecord) :
    (∃ e, extractTags rs = .error e) ↔ ∃ r ∈ rs, r.image_tag = none := by
  induction rs with
  | nil => simp [extractTags]
  | cons r rest ih =>
    cases hr : r.image_tag with
    | none =>
      refine ⟨fun _ => ⟨r, List.mem_cons_self r rest, hr⟩, fun _ => ?_⟩
      exact ⟨.imageTagAbsent, by simp [extractTags, hr]⟩
    | some t =>
      cases hrec : extractTags rest with
      | error e =>
        refine ⟨fun _ => ?_, fun _ => ⟨e, by simp [extractTags, hr, hrec, Except.map]⟩⟩
        obtain ⟨x, hx, hxn⟩ := ih.mp ⟨e, hrec⟩
        exact ⟨x, List.mem_cons_of_mem r hx, hxn⟩
      | ok ts =>
        constructor
        · rintro ⟨e, he⟩
          simp [extractTags, hr, hrec, Except.map] at he
        · rintro ⟨x, hx, hxn⟩
          rcases List.mem_cons.mp hx with rfl | hx
          · rw [hr] at hxn; exact absurd hxn (by simp)
          · obtain ⟨e, he⟩ := ih.mpr ⟨x, hx, hxn⟩
            rw [he] at hrec; exact absurd hrec (by simp)

/-! ### Category-pattern lemmas -/

theorem catMatch_iff (l : List Char) (cat : String) :
    catMatch l cat = true ↔
      ∃ c t, l = cat.data ++ '_' :: c :: t ∧ c.isDigit = true := by
  unfold catMatch
  simp only [Bool.and_eq_true, isPre_iff]
  constructor
  · rintro ⟨⟨t0, rfl⟩, hd⟩
    have hlen : (cat.data ++ ['_']).length = cat.length + 1 := by
      rw [List.length_append]
      rfl
    have hdrop : ((cat.data ++ ['_']) ++ t0).drop (cat.length + 1) = t0 := by
      rw [← hlen, List.drop_left]
    rw [hdrop] at hd
    cases t0 with
    | nil => simp at hd
    | cons c t => exact ⟨c, t, by simp, hd⟩
  · rintro ⟨c, t, rfl, hd⟩
    have hlen : (cat.data ++ ['_']).length = cat.length + 1 := by
      rw [List.length_append]
      rfl
    have hdrop : (cat.data ++ '_' :: c :: t).drop (cat.length + 1) = c :: t := by
      have : cat.data ++ '_' :: c :: t = (cat.data ++ ['_']) ++ c :: t := by simp
      rw [this, ← hlen, List.drop_left]
    refine ⟨⟨c :: t, by simp⟩, ?_⟩
    rw [hdrop]
    exact hd

theorem defects4jMatch_iff (nm : String) :
    defects4jMatch nm = true ↔
      ∃ cat ∈ DEFECTS4J_CATEGORY, ∃ c t,
        nm.data = cat.data ++ '_' :: c :: t ∧ c.isDigit = true := by
  unfold defects4jMatch
  rw [List.any_eq_true]
  constructor
  · rintro ⟨cat, hcat, hm⟩
    exact ⟨cat, hcat, (catMatch_iff nm.data cat).mp hm⟩
  · rintro ⟨cat, hcat, hc⟩
    exact ⟨cat, hcat, (catMatch_iff nm.data cat).mpr hc⟩

/-! ### The claims -/

/-- C1 (counterexample): the directory name `Lang_42abc` — a category name,
an underscore, digits, and trailing characters — IS accepted as a Defects4J
candidate by the source (whose `re.match` pattern has no end anchor), although
the claimed anchored pattern `^(...)_\d+$` rejects it. -/
theorem claim1_counterexample :
    (list_bug_candidates [FSTree.dir "Lang_42abc" []] Dataset.defects4j [] []).map FSTree.name
        = ["Lang_42abc"] ∧
    specAnchoredMatch "Lang_42abc" = false ∧
    specAnchoredMatch "Lang_42" = true := by
  exact ⟨by rfl, by rfl, by rfl⟩

/-- C1 (amended): a directory entry is accepted as a Defects4J candidate iff it
is a directory whose name BEGINS with one of the 17 category names followed by
an underscore and at least one digit; the match is anchored at the start only,
so trailing characters after the digits are allowed (`Lang_42abc` is a
candidate; `Lang42` and `Foo_1` are not). -/
theorem claim1_amended (entries : List FSTree) (qs bs : List String) (e : FSTree) :
    e ∈ list_bug_candidates entries Dataset.defects4j qs bs ↔
      e ∈ entries ∧ e.isDir = true ∧
      ∃ cat ∈ DEFECTS4J_CATEGORY, ∃ c t,
        e.name.data = cat.data ++ '_' :: c :: t ∧ c.isDigit = true := by
  simp only [list_bug_candidates, List.mem_filter, Bool.and_eq_true, defects4jMatch_iff,
    and_assoc]

/-- C1 (amended, witness): `Lang_42abc` is accepted, by the amended rule. -/
theorem claim1_amended_witness :
    FSTree.dir "Lang_42abc" [] ∈
      list_bug_candidates [FSTree.dir "Lang_42abc" []] Dataset.defects4j [] [] :=
  (claim1_amended [FSTree.dir "Lang_42abc" []] [] [] (FSTree.dir "Lang_42abc" [])).mpr
    ⟨by simp, rfl, "Lang", by decide, '4', "2abc".data, by decide, by decide⟩

/-- C4: if a dataset's root folder does not exist, the dataset loop emits
exactly the single diagnostic for that dataset and returns immediately: the
result does not depend on the remaining datasets, which are not processed. -/
theorem claim4 (qs bs : List String) (repo : Repo) (d : Dataset)
    (rest : List Dataset) (vp : Bool) (hroot : repo.root d = none) :
    processDatasets qs bs repo (d :: rest) vp =
      (["[FAIL] No " ++ d.value ++ " folder"], vp, true) := by
  unfold processDatasets processDataset
  rw [hroot]
  simp

/-- C4 (witness): a repository with no `Defects4J` root folder. -/
theorem claim4_witness :
    processDatasets [] [] repoNoRoot
        [Dataset.defects4j, Dataset.quixbugs, Dataset.bears, Dataset.bugswarm] true =
      (["[FAIL] No Defects4J folder"], true, true) := by
  rw [claim4 [] [] repoNoRoot Dataset.defects4j
    [Dataset.quixbugs, Dataset.bears, Dataset.bugswarm] true rfl]
  rfl

/-- C6: when a dataset's candidate count is below its minimum, the first line
that the dataset's processing prints is the shortfall diagnostic naming
exactly `required - found`. -/
theorem claim6 (qs bs : List String) (repo : Repo) (d : Dataset) (entries : List FSTree)
    (hroot : repo.root d = some entries)
    (hshort : (list_bug_candidates entries d qs bs).length < dataset_requirements d) :
    (processDataset qs bs repo d true).1.head? =
      some ("[FAIL] Missing " ++
        toString (dataset_requirements d - (list_bug_candidates entries d qs bs).length) ++
        " bugs in " ++ d.value) := by
  unfold processDataset
  rw [hroot]
  simp [if_pos hshort]

/-- C6 (witness): one Defects4J candidate found, 68 required: the diagnostic
names 67. -/
theorem claim6_witness :
    (processDataset [] [] repoC3 Dataset.defects4j true).1.head? =
      some "[FAIL] Missing 67 bugs in Defects4J" := by
  rw [claim6 [] [] repoC3 Dataset.defects4j [FSTree.dir "Lang_1" chC3] rfl (by decide)]
  rfl

set_option maxRecDepth 100000 in
/-- C10: the diagnostics for a missing `Buggy-version-Randoop` and a missing
`Patched-version-Randoop` coverage subfolder are textually identical, and
likewise for the two Evosuite coverage subfolders: the full printed output of
`validate` is the same for both repositories and does not say which of the
buggy or patched coverage folder is missing. -/
theorem claim10 :
    validate refsTriv (repoCov "Buggy-version-Randoop") =
        validate refsTriv (repoCov "Patched-version-Randoop") ∧
    validate refsTriv (repoCov "Buggy-version-Randoop") =
        .ok ["[FAIL] No coverage folder for Randoop in Defects4J-Lang_1"] ∧
    validate refsTriv (repoCov "Buggy-version-Evosuite") =
        validate refsTriv (repoCov "Patched-version-Evosuite") ∧
    validate refsTriv (repoCov "Buggy-version-Evosuite") =
        .ok ["[FAIL] No coverage folder for Evosuite in Defects4J-Lang_1"] := by
  exact ⟨by rfl, by rfl, by rfl, by rfl⟩

/-- C3 (counterexample): Defects4J has one candidate (shortfall 67) whose
version folders and `test.txt` are present but which has no Randoop test file.
The claim predicts that the per-candidate content checks still run, which
would print the missing-Randoop diagnostic; the code instead returns at the
checkpoint after the first candidate's version checks, so the whole output is
the single shortfall line, and no later dataset is processed either. -/
theorem claim3_counterexample :
    validate refsTriv repoC3 = .ok ["[FAIL] Missing 67 bugs in Defects4J"] ∧
    "[FAIL] No Randoop test files in Defects4J-Lang_1/Buggy-Version" ∉
      (["[FAIL] Missing 67 bugs in Defects4J"] : List String) ∧
    "[FAIL] No QuixBugs folder" ∉ (["[FAIL] Missing 67 bugs in Defects4J"] : List String) := by
  exact ⟨by rfl, by decide, by decide⟩

/-- C3 (amended): a count shortfall reports the shortfall and marks failure
without aborting at that point, but the per-candidate checks do not all run:
if the dataset has no candidate, processing moves on to the next dataset; if
it has candidates, only the first candidate's version and `test.txt` checks
run (emitting their diagnostics), after which the run returns — groups 2 and
3 and all remaining candidates and datasets are skipped. -/
theorem claim3_amended (qs bs : List String) (repo : Repo) (d : Dataset)
    (entries : List FSTree) (hroot : repo.root d = some entries)
    (hshort : (list_bug_candidates entries d qs bs).length < dataset_requirements d) :
    processDataset qs bs repo d true =
      match list_bug_candidates entries d qs bs with
      | [] =>
        (["[FAIL] Missing " ++
            toString (dataset_requirements d - (list_bug_candidates entries d qs bs).length) ++
            " bugs in " ++ d.value], false, false)
      | c :: _ =>
        (("[FAIL] Missing " ++
            toString (dataset_requirements d - (list_bug_candidates entries d qs bs).length) ++
            " bugs in " ++ d.value)
          :: (checkCandidate d.value c.name c.children false).1, false, true) := by
  unfold processDataset
  rw [hroot]
  simp only [if_pos hshort, decide_eq_true hshort, Bool.not_true, Bool.and_false]
  cases hc : list_bug_candidates entries d qs bs with
  | nil => simp [hc, processCandidates]
  | cons c rest =>
    unfold processCandidates
    simp only [checkCandidate_flagFalse]
    simp

/-- C3 (amended, witness): the concrete shortfall repository: the first (and
only) candidate's group-1 checks pass silently, then the run returns. -/
theorem claim3_amended_witness :
    processDataset [] [] repoC3 Dataset.defects4j true =
      (("[FAIL] Missing 67 bugs in Defects4J" : String)
        :: (checkCandidate "Defects4J" "Lang_1" chC3 false).1, false, true) := by
  rw [claim3_amended [] [] repoC3 Dataset.defects4j [FSTree.dir "Lang_1" chC3] rfl (by decide)]
  rfl

/-- C5: for a candidate whose version folders and `test.txt` are present, the
four test-file existence checks are evaluated independently, each failing one
contributing its own diagnostic line; if any of them failed, the run returns
right after the group, with no coverage lines, no further candidates and no
further datasets (the result does not depend on `rest`). -/
theorem claim5 (ds nm : String) (ch : List FSTree) (rest : List FSTree)
    (hbv : pathExists ["Buggy-Version"] ch = true)
    (hpv : pathExists ["Patched-Version"] ch = true)
    (htt : pathExists ["test.txt"] ch = true)
    (hfail : (find_randoop_test_files (findEntry ch "Buggy-Version")).length = 0 ∨
             (find_randoop_test_files (findEntry ch "Patched-Version")).length = 0 ∨
             (find_evosuite_test_files (findEntry ch "Buggy-Version")).length = 0 ∨
             (find_evosuite_test_files (findEntry ch "Patched-Version")).length = 0) :
    processCandidates ds (FSTree.dir nm ch :: rest) true =
      ((if (find_randoop_test_files (findEntry ch "Buggy-Version")).length = 0 then
          ["[FAIL] No Randoop test files in " ++ ds ++ "-" ++ nm ++ "/Buggy-Version"] else []) ++
       (if (find_randoop_test_files (findEntry ch "Patched-Version")).length = 0 then
          ["[FAIL] No Randoop test files in " ++ ds ++ "-" ++ nm ++ "/Patched-Version"] else []) ++
       (if (find_evosuite_test_files (findEntry ch "Buggy-Version")).length = 0 then
          ["[FAIL] No Evosuite test files in " ++ ds ++ "-" ++ nm ++ "/Buggy-Version"] else []) ++
       (if (find_evosuite_test_files (findEntry ch "Patched-Version")).length = 0 then
          ["[FAIL] No Evosuite test files in " ++ ds ++ "-" ++ nm ++ "/Patched-Version"] else []),
       false, true) := by
  have hvp2 : (true && (pathExists ["Buggy-Version"] ch && pathExists ["Patched-Version"] ch)
      && pathExists ["test.txt"] ch) = true := by
    simp [hbv, hpv, htt]
  rcases hfail with h | h | h | h <;>
    (unfold processCandidates checkCandidate
     simp only [FSTree.name, FSTree.children]
     simp [hbv, hpv, htt, h])

/-- C5 (witness): a candidate lacking Randoop files in both versions gets two
separate diagnostics (Buggy-Version then Patched-Version) and the run halts. -/
theorem claim5_witness :
    processCandidates "Defects4J" [FSTree.dir "Lang_1" chC3] true =
      (["[FAIL] No Randoop test files in Defects4J-Lang_1/Buggy-Version",
        "[FAIL] No Randoop test files in Defects4J-Lang_1/Patched-Version"], false, true) := by
  rw [claim5 "Defects4J" "Lang_1" chC3 [] (by rfl) (by rfl) (by rfl) (Or.inl (by rfl))]
  rfl

/-- C2: for a repository in which every dataset root exists, every dataset
meets its minimum candidate count, and every candidate carries the complete
required structure, `validate` prints exactly the single line
`[PASS] Validation pass`. -/
theorem claim2 (refs : RefFiles) (repo : Repo) (qs bs : List String)
    (hread : read_dataset_files refs = .ok (qs, bs))
    (hconf : conformantRepo qs bs repo = true) :
    validate refs repo = .ok ["[PASS] Validation pass"] := by
  unfold validate
  rw [hread]
  unfold conformantRepo at hconf
  rw [List.all_eq_true] at hconf
  simp only [processDatasets_conformant qs bs repo datasetOrder hconf]
  simp

set_option maxRecDepth 200000 in
/-- C2 (witness): a concrete fully conformant repository with 68 Defects4J
bugs and 20 bugs in each other dataset. -/
theorem claim2_witness :
    validate refsBig repoBig = .ok ["[PASS] Validation pass"] :=
  claim2 refsBig repoBig qsBig bsBig (by rfl) (by rfl)

/-- C7: loading the reference files fails (with the modelled
`ReferenceLoadError`) exactly when the plain-text file is missing, or the
JSON file is missing or malformed, or some JSON record lacks the `image_tag`
field; and any such failure propagates out of `validate` before any dataset
is checked (the run produces the error instead of any diagnostics). -/
theorem claim7 (refs : RefFiles) (repo : Repo) :
    ((∃ e, read_dataset_files refs = .error e) ↔
      refs.quixbugsTxt = none ∨ refs.exportJson = JsonFile.missing ∨
      refs.exportJson = JsonFile.malformed ∨
      (∃ rs, refs.exportJson = JsonFile.records rs ∧ ∃ r ∈ rs, r.image_tag = none)) ∧
    (∀ e, read_dataset_files refs = .error e → validate refs repo = .error e) := by
  obtain ⟨qtxt, jf⟩ := refs
  constructor
  · cases qtxt with
    | none => simp [read_dataset_files]
    | some content =>
      cases jf with
      | missing => simp [read_dataset_files]
      | malformed => simp [read_dataset_files]
      | records rs =>
        constructor
        · rintro ⟨e, he⟩
          simp only [read_dataset_files] at he
          cases hrec : extractTags rs with
          | error e' =>
            exact Or.inr (Or.inr (Or.inr ⟨rs, rfl, (extractTags_error_iff rs).mp ⟨e', hrec⟩⟩))
          | ok ts =>
            rw [hrec] at he
            simp [Except.map] at he
        · rintro (h | h | h | ⟨rs', hrs, hr⟩)
          · exact absurd h (by simp)
          · exact absurd h (by simp)
          · exact absurd h (by simp)
          · injection hrs with h'
            subst h'
            obtain ⟨e, he⟩ := (extractTags_error_iff rs).mpr hr
            exact ⟨e, by simp [read_dataset_files, he, Except.map]⟩
  · intro e he
    simp [validate, he]

/-- C7 (witness): a missing `QuixBugs.txt` aborts the whole run with the
corresponding error before any dataset diagnostic. -/
theorem claim7_witness :
    validate ⟨none, JsonFile.records []⟩ repoNoRoot =
      .error ReferenceLoadError.quixbugsMissing :=
  (claim7 ⟨none, JsonFile.records []⟩ repoNoRoot).2 ReferenceLoadError.quixbugsMissing (by rfl)

/-- C8 (counterexample): the file content `"foo\n"` ends in a trailing
newline, yet loading it yields the reference set `{"foo"}`: the empty string
is NOT a member, contrary to the claim (Python `splitlines` does not produce
a final empty line for a single trailing newline). -/
theorem claim8_counterexample :
    read_dataset_files ⟨some "foo\n", JsonFile.records []⟩ = .ok (["foo"], []) ∧
    "" ∉ (["foo"] : List String) := by
  exact ⟨by rfl, by decide⟩

/-- C8 (amended): loading the plain-text reference file treats each
newline-terminated line as one identifier, and the final trailing newline
terminates the last identifier instead of contributing an extra empty one: a
file consisting of the given newline-free identifiers, one per line each
followed by a newline, loads exactly those identifiers (an empty member
arises only from a genuinely blank line among them). -/
theorem claim8_amended (ids : List String) (hne : ids ≠ [])
    (hnl : ∀ i ∈ ids, '\n' ∉ i.data) :
    pythonSplitlines (joinLines ids) = ids := by
  induction ids with
  | nil => exact absurd rfl hne
  | cons i rest ih =>
    cases rest with
    | nil =>
      show splitlinesAux (i ++ "\n").data [] = [i]
      have hd : (i ++ "\n").data = i.data ++ ['\n'] := by
        rw [strData_append]
      rw [hd, splitlinesAux_no_nl i.data [] (hnl i (by simp))]
      simp [strMk_data]
    | cons j rest' =>
      show splitlinesAux ((i ++ "\n") ++ joinLines (j :: rest')).data [] = i :: j :: rest'
      have hd : ((i ++ "\n") ++ joinLines (j :: rest')).data
          = i.data ++ '\n' :: (joinLines (j :: rest')).data := by
        rw [strData_append, strData_append]
        simp
      rw [hd, splitlinesAux_line i.data _ [] (hnl i (by simp))]
      have hrest := ih (by simp) (fun x hx => hnl x (List.mem_cons_of_mem i hx))
      unfold pythonSplitlines at hrest
      rw [hrest]
      simp [strMk_data]

/-- C8 (amended, witness): the one-identifier file `"foo\n"`. -/
theorem claim8_amended_witness :
    joinLines ["foo"] = "foo\n" ∧ pythonSplitlines (joinLines ["foo"]) = ["foo"] :=
  ⟨rfl, claim8_amended ["foo"] (by decide) (by decide)⟩

theorem pass_iff_of_allFail {out : List String} (hne : out ≠ [])
    (hall : ∀ l ∈ out, isFailLine l = true) :
    ("[PASS] Validation pass" ∈ out ↔ out = ["[PASS] Validation pass"]) ∧
    ("[PASS] Validation pass" ∈ out ↔ ∀ l ∈ out, isFailLine l = false) := by
  have hp : "[PASS] Validation pass" ∉ out := by
    intro hmem
    have h1 := hall _ hmem
    rw [isFailLine_pass] at h1
    exact absurd h1 (by simp)
  constructor
  · constructor
    · intro hmem; exact absurd hmem hp
    · intro heq
      rw [heq] at hp
      exact absurd (by simp : "[PASS] Validation pass" ∈ ["[PASS] Validation pass"]) hp
  · constructor
    · intro hmem; exact absurd hmem hp
    · intro hforall
      obtain ⟨x, hx⟩ := List.exists_mem_of_ne_nil out hne
      have h1 := hall x hx
      have h2 := hforall x hx
      rw [h1] at h2
      exact absurd h2 (by simp)

/-- C9: a run of `validate` (whose reference loading succeeded) prints the
success line iff its output is exactly the single success line, and iff no
`[FAIL]`-prefixed diagnostic was printed: success and failure output are
mutually exclusive, and a run printing no failure ends with the success
line. -/
theorem claim9 (refs : RefFiles) (repo : Repo) (out : List String)
    (h : validate refs repo = .ok out) :
    ("[PASS] Validation pass" ∈ out ↔ out = ["[PASS] Validation pass"]) ∧
    ("[PASS] Validation pass" ∈ out ↔ ∀ l ∈ out, isFailLine l = false) := by
  unfold validate at h
  cases hread : read_dataset_files refs with
  | error e =>
    rw [hread] at h
    exact absurd h (by simp)
  | ok p =>
    obtain ⟨qs, bs⟩ := p
    rw [hread] at h
    simp only at h
    obtain ⟨m1, m2, m3, m4, m5⟩ := processDatasets_inv qs bs repo datasetOrder true
    cases hh : (processDatasets qs bs repo datasetOrder true).2.2 with
    | true =>
      rw [hh] at h
      simp only [if_true] at h
      injection h with h
      subst h
      have hne : (processDatasets qs bs repo datasetOrder true).1 ≠ [] := by
        rcases m5 hh with hne | hfl
        · exact hne
        · exact absurd hfl (by simp)
      exact pass_iff_of_allFail hne m1
    | false =>
      rw [hh] at h
      simp only [Bool.false_eq_true, if_false] at h
      cases hf : (processDatasets qs bs repo datasetOrder true).2.1 with
      | true =>
        rw [hf] at h
        simp only [if_true] at h
        rw [m3 hf hh] at h
        simp only [List.nil_append] at h
        injection h with h
        subst h
        constructor
        · simp
        · constructor
          · intro _ l hl
            rw [List.mem_singleton] at hl
            rw [hl, isFailLine_pass]
          · intro _
            simp
      | false =>
        rw [hf] at h
        simp only [Bool.false_eq_true, if_false] at h
        injection h with h
        subst h
        have hne : (processDatasets qs bs repo datasetOrder true).1 ≠ [] := m4 rfl hf
        exact pass_iff_of_allFail hne m1

/-- C9 (witness): the single-failure run for a repository with no Defects4J
root folder. -/
theorem claim9_witness :
    ("[PASS] Validation pass" ∈ (["[FAIL] No Defects4J folder"] : List String) ↔
        (["[FAIL] No Defects4J folder"] : List String) = ["[PASS] Validation pass"]) ∧
    ("[PASS] Validation pass" ∈ (["[FAIL] No Defects4J folder"] : List String) ↔
        ∀ l ∈ (["[FAIL] No Defects4J folder"] : List String), isFailLine l = false) :=
  claim9 refsTriv repoNoRoot ["[FAIL] No Defects4J folder"] (by rfl)

end BugRepoValidate
